import Mathlib

/-!
Verification development for the core of the Tern logic-programming language
(unification engine, goal-algebra stream iterators, bytecode virtual machine,
and code generator), shallowly embedded from the Rust sources
`src/unification.rs`, `src/logic.rs`, `src/vm.rs` and `src/codegen.rs`.

Modelling conventions:
* Interned identifiers (Rust `u64` atom/variable ids, `i64` substitution keys)
  are modelled as `Nat`: ids are produced by a monotone counter starting at 0,
  are never negative, and are only ever compared for equality.
* Rust `HashMap` is modelled as an association list with first-match lookup
  and overwriting insert.
* The recursive `walk` of `unification.rs` can diverge on cyclic bindings, so
  its embedding `walkF` takes a fuel argument; `none` means the recursion
  depth exceeded the fuel.  All other recursion in the sources is structural.
-/

namespace Tern

/-! ## Part 1: definitions (the shallow embedding) -/

/-- Model of `Term<T>` from `unification.rs`, with the atom payload `T` instantiated at
the interned-id type (`AtomType = u64` in `vm.rs`).  Equality of terms is
structural, exactly as the hand-written `PartialEq` impl in the source. -/
inductive Term where
  | Atom : Nat → Term
  | Variable : Nat → Term
  | Tuple : List Term → Term
deriving Repr

mutual

/-- Structural equality on terms, mirroring `impl PartialEq for Term<T>`
(atoms by payload, variables by id, tuples by length and pointwise equality,
mixed constructors unequal). -/
def termEq : Term → Term → Bool
  | .Atom u, .Atom v => u == v
  | .Variable u, .Variable v => u == v
  | .Tuple u, .Tuple v => termListEq u v
  | _, _ => false
termination_by structural t _ => t

/-- Pointwise equality of term sequences (Rust `Vec<Term<T>>: PartialEq`). -/
def termListEq : List Term → List Term → Bool
  | [], [] => true
  | a :: as_, b :: bs => termEq a b && termListEq as_ bs
  | _, _ => false
termination_by structural u _ => u

end

/-- Model of `Substitutions<T> = HashMap<i64, Term<T>>`: a map from variable ids to
terms, modelled as an association list (first match wins on lookup). -/
abbrev Subst := List (Nat × Term)

/-- Model of `HashMap::get` on the substitution. -/
def lookupSub : Subst → Nat → Option Term
  | [], _ => none
  | (k, t) :: rest, v => if k = v then some t else lookupSub rest v

/-- Model of `HashMap::insert` on the substitution: overwrites any previous entry for
the key. -/
def insertSub (s : Subst) (v : Nat) (t : Term) : Subst :=
  (v, t) :: s.filter (fun p => !(p.1 == v))

/-- Model of `walk` from `unification.rs`: resolve `x` through the bindings,
recursively following `Variable` links until an unbound variable or a
non-variable term is reached.  The Rust function recurses unboundedly and
diverges on a cyclic variable chain; the embedding spends one unit of fuel
per recursive step and returns `none` when the fuel runs out. -/
def walkF : Nat → Term → Subst → Option Term
  | 0, _, _ => none
  | fuel + 1, x, bindings =>
    match x with
    | .Variable var =>
      match lookupSub bindings var with
      | some t => walkF fuel t bindings
      | none => some x
    | _ => some x

mutual

/-- Model of `unify` from `unification.rs`.  Returns the `bool` result paired with the
substitution after the call (the Rust function mutates `bindings` in place);
`none` means a `walk` inside the call exceeded the fuel.  The structure of
the match mirrors the source exactly — including the arm that compares the
*unwalked* right-hand term against the walked result (`right == x`). -/
def unifyF (fuel : Nat) (left right : Term) (bindings : Subst) :
    Option (Bool × Subst) :=
  match left with
  | .Atom _ =>
    match right with
    | .Atom _ => some (termEq left right, bindings)
    | .Variable _ => do
      let x ← walkF fuel right bindings
      match x with
      | .Variable var => some (true, insertSub bindings var left)
      | _ => some (termEq right x, bindings)
    | .Tuple _ => some (false, bindings)
  | .Variable _ => do
    let x ← walkF fuel left bindings
    if termEq right x then
      some (true, bindings)
    else
      match x with
      | .Variable var => do
        let y ← walkF fuel right bindings
        if termEq x y then some (true, bindings)
        else some (true, insertSub bindings var right)
      | _ => some (false, bindings)
  | .Tuple u =>
    match right with
    | .Atom _ => some (false, bindings)
    | .Variable _ => do
      let x ← walkF fuel right bindings
      match x with
      | .Variable var => some (true, insertSub bindings var left)
      | _ => some (termEq right x, bindings)
    | .Tuple v =>
      if u.length ≠ v.length then some (false, bindings)
      else unifyListF fuel u v bindings
termination_by structural left

/-- The pairwise loop of the `Tuple`/`Tuple` arm of `unify`: unify the
elements left to right, threading the substitution, stopping at the first
failure (the bindings added before the failure are kept, as in the source). -/
def unifyListF (fuel : Nat) (u v : List Term) (bindings : Subst) :
    Option (Bool × Subst) :=
  match u, v with
  | u0 :: us, v0 :: vs => do
    let (ok, bindings') ← unifyF fuel u0 v0 bindings
    if ok then unifyListF fuel us vs bindings' else some (false, bindings')
  | _, _ => some (true, bindings)
termination_by structural u

end

/-! ### The goal-algebra stream iterators from `logic.rs`

A stream (a Rust `Iterator<Item = Substitutions<T>>`) is modelled by the
list of items it has yet to yield; `Iterator::next` on a list stream pops
its head.  The iterators below are generic in the item type, exactly as the
source iterators are generic in the underlying iterators. -/

/-- The state of `Disj2Iterator`: the two inner streams plus the
`interleave_left` toggle. -/
structure DisjState (σ : Type) where
  left : List σ
  right : List σ
  interleaveLeft : Bool
deriving Repr

/-- Model of `Disj2Iterator::next` from `logic.rs`: flip the toggle, then pull from
the selected stream, falling back to the other stream in the same call when
the selected one is empty (`self.left.next().or_else(|| self.right.next())`).
Returns the yielded item (if any) and the successor state. -/
def disjNextFn {σ : Type} : DisjState σ → Option σ × DisjState σ
  | ⟨l, r, true⟩ =>
    match l with
    | x :: l' => (some x, ⟨l', r, false⟩)
    | [] =>
      match r with
      | y :: r' => (some y, ⟨[], r', false⟩)
      | [] => (none, ⟨[], [], false⟩)
  | ⟨l, r, false⟩ =>
    match r with
    | y :: r' => (some y, ⟨l, r', true⟩)
    | [] =>
      match l with
      | x :: l' => (some x, ⟨l', [], true⟩)
      | [] => (none, ⟨[], [], true⟩)

/-- Exhaustively pull `disjNextFn`, collecting the yielded items.  One unit
of fuel per pull; `s.left.length + s.right.length` pulls always reach the
first `none` (see `disjRunF_spec`), so the wrapper `disjRun` is exact. -/
def disjRunF {σ : Type} : Nat → DisjState σ → List σ
  | 0, _ => []
  | fuel + 1, s =>
    match disjNextFn s with
    | (some x, s') => x :: disjRunF fuel s'
    | (none, _) => []

/-- The state transition of one pull on a `Disj2Iterator`, discarding the
yielded item. -/
def disjStep {σ : Type} (s : DisjState σ) : DisjState σ :=
  (disjNextFn s).2

/-- The full stream of items yielded by a `Disj2Iterator` started in state
`s`, i.e. `disjNextFn` pulled until it first returns `none`. -/
def disjRun {σ : Type} (s : DisjState σ) : List σ :=
  disjRunF (s.left.length + s.right.length) s

/-- Spec-side definition (from the specification's words, for comparison
with `disjRun`): the classic miniKanren interleaving — take one item from
the left stream, then continue with the streams swapped. -/
def interleaveSpec {σ : Type} : List σ → List σ → List σ
  | [], r => r
  | x :: l, r => x :: interleaveSpec r l
termination_by l r => l.length + r.length
decreasing_by simp; omega

/-- The state of `Conj2Iterator` specialised to list streams: the optional
current inner (right) stream and the outer (left) stream.  The right-hand
goal of the conjunction is modelled by the function `f` mapping a
substitution to the stream `right.eval(substs)`. -/
def conj2RunF {σ : Type} (f : σ → List σ) : Nat → Option (List σ) → List σ → List σ
  | 0, _, _ => []
  | fuel + 1, some (x :: inner), left => x :: conj2RunF f fuel (some inner) left
  | fuel + 1, some [], left => conj2RunF f fuel none left
  | fuel + 1, none, s :: left' => conj2RunF f fuel (some (f s)) left'
  | _ + 1, none, [] => []

/-- Fuel bound under which `conj2RunF` is exhaustive: the current inner
stream plus, for every remaining outer item, its inner stream and the two
bookkeeping steps of `Conj2Iterator::next` (reset of an exhausted inner
stream, evaluation of the next one). -/
def conjM {σ : Type} (f : σ → List σ) (inner : Option (List σ)) (left : List σ) : Nat :=
  (match inner with
   | none => 0
   | some l => l.length + 1) +
  (left.map (fun s => (f s).length + 2)).sum

/-- The full stream of items yielded by a `Conj2Iterator` whose state is
`(inner, left)`: each branch of `conj2RunF` mirrors one branch of
`Conj2Iterator::next` in `logic.rs` (yield from the inner stream; reset an
exhausted inner stream; evaluate the right goal on the next outer item;
finish when the outer stream is exhausted). -/
def conj2Run {σ : Type} (f : σ → List σ) (inner : Option (List σ)) (left : List σ) : List σ :=
  conj2RunF f (conjM f inner left) inner left

/-- Spec-side definition (from the specification's words, for comparison
with `conj2Run`): the flat-map of the right goal over the left stream. -/
def flatMapSpec {σ : Type} (f : σ → List σ) : List σ → List σ
  | [] => []
  | x :: l => f x ++ flatMapSpec f l

/-! ### Substitution invariants -/

/-- The substitution invariant of the specification: no variable is bound to
itself. -/
def NoSelfBinding (s : Subst) : Prop :=
  ∀ v, lookupSub s v ≠ some (Term.Variable v)

/-- The substitutions reachable from the empty substitution by a sequence of
`unify` calls (each call may succeed or fail; the substitution after the
call is reachable either way, matching the Rust caller that keeps mutating
the same `HashMap`). -/
inductive ReachableSubst : Subst → Prop where
  | empty : ReachableSubst []
  | step : ∀ {s s' : Subst} (fuel : Nat) (a b : Term) (res : Bool),
      ReachableSubst s → unifyF fuel a b s = some (res, s') → ReachableSubst s'

/-! ### The virtual machine from `vm.rs`

The VM's goals are the trees built by the `Unify`, `Conj2` and `Disj2`
opcodes out of `logic::Unify`, `logic::Conj2` and `logic::Disj2`; they are
modelled by the inductive `GoalV`.  A VM stream (`Value::Stream`) is
modelled, as in the iterator section, by the list of substitutions it has
yet to yield. -/

/-- Model of `CallableKind` from `vm.rs`. -/
inductive CallableKind where
  | Function
  | Relation
deriving Repr, DecidableEq

/-- The goal trees the VM builds (`logic::Unify` / `logic::Conj2` /
`logic::Disj2` behind `Rc<dyn Goal>`). -/
inductive GoalV where
  | Unify : Term → Term → GoalV
  | Conj2 : GoalV → GoalV → GoalV
  | Disj2 : GoalV → GoalV → GoalV
deriving Repr

/-- Model of `Opcode` from `vm.rs`.  `Variable` is spelled `Var` because `variable`
is a Lean keyword. -/
inductive Opcode where
  | Atom : Nat → Opcode
  | Var : Nat → Opcode
  | Conj2 : Opcode
  | Disj2 : Opcode
  | Unify : Opcode
  | Solve : Opcode
  | Next : Opcode
  | Pop : Opcode
  | NewTable : Opcode
  | SetTable : Opcode
  | GetTable : Opcode
  | SetEnv : Opcode
  | GetEnv : Opcode
  | Call : Opcode
  | Ret : Opcode
  | Callable : CallableKind → List Nat → List Opcode → Nat → Opcode
deriving Repr

/-- Model of `Value` from `vm.rs`.  `Value::None` is spelled `NoneV` to avoid
clashing with `Option.none` in pattern positions. -/
inductive Value where
  | Term : Term → Value
  | Goal : GoalV → Value
  | Stream : List Subst → Value
  | Table : List (Term × Term) → Value
  | NoneV : Value
  | Callable : CallableKind → List Nat → List Opcode → Nat → Value
deriving Repr

/-- An activation frame: the Rust call stack holds `Value::Callable`s only
(anything else is `unreachable!`), so the model gives the call stack this
dedicated record type. -/
structure Frame where
  kind : CallableKind
  parameters : List Nat
  instructions : List Opcode
  ip : Nat
deriving Repr

/-- The mutable state of `VirtualMachine` that the execution loop touches:
the value stack (head = top), the call stack (head = top), and the global
`let`-binding environment.  The interner is only used during code
generation and is kept in the code generator's state. -/
structure VMState where
  stack : List Value
  callstack : List Frame
  env : List (Nat × Value)
deriving Repr

/-- Result of one iteration of the interpreter loop: a next state, a normal
halt (empty call stack), or a `RuntimeError` carrying its message and the
instruction pointer (`err!`). -/
inductive StepRes where
  | ok : VMState → StepRes
  | halt : VMState → StepRes
  | err : String → Nat → StepRes
deriving Repr

/-- Model of `HashMap::get` on a table keyed by terms (Rust `Eq` on `Term` is the
structural `PartialEq`, i.e. `termEq`). -/
def tableLookup : List (Term × Term) → Term → Option Term
  | [], _ => none
  | (k, t) :: rest, key => if termEq k key then some t else tableLookup rest key

/-- Model of `HashMap::insert` on a table keyed by terms. -/
def tableInsert (tbl : List (Term × Term)) (key value : Term) :
    List (Term × Term) :=
  (key, value) :: tbl.filter (fun p => !(termEq p.1 key))

/-- Model of `HashMap::get` on the environment. -/
def envLookup : List (Nat × Value) → Nat → Option Value
  | [], _ => none
  | (k, t) :: rest, v => if k = v then some t else envLookup rest v

/-- Model of `HashMap::insert` on the environment. -/
def envInsert (env : List (Nat × Value)) (key : Nat) (value : Value) :
    List (Nat × Value) :=
  (key, value) :: env.filter (fun p => !(p.1 == key))

/-- Model of `solve` on a VM goal: the stream of substitutions the goal yields from
the given substitution.  `Unify` leaves run the unifier (`none` propagates
fuel exhaustion of a `walk`); `Conj2` flat-maps the right goal over the
left stream in left-outer right-inner order; `Disj2` interleaves the two
streams starting from the left (`interleave_left = true`), exactly the
behaviour proved of the iterators above. -/
def solveGoal (fuel : Nat) : GoalV → Subst → Option (List Subst)
  | .Unify l r, s =>
    match unifyF fuel l r s with
    | some (true, s') => some [s']
    | some (false, _) => some []
    | none => none
  | .Conj2 g1 g2, s => do
    -- the flat-map stream of `Conj2Iterator`; the Conj2 theorem of this
    -- file proves this is what exhausting the iterator yields.
    let l1 ← solveGoal fuel g1 s
    let ls ← l1.mapM (solveGoal fuel g2)
    some ls.flatten
  | .Disj2 g1 g2, s => do
    let l1 ← solveGoal fuel g1 s
    let l2 ← solveGoal fuel g2 s
    some (disjRun ⟨l1, l2, true⟩)

/-- Convert an answer substitution to the `Table` pushed by `Next`: each
binding `k ↦ t` becomes an entry `Variable(k) ↦ t`. -/
def substToTable (s : Subst) : List (Term × Term) :=
  s.map (fun kv => (Term.Variable kv.1, kv.2))

/-- The parameter-binding loop of the `Ret` opcode: for each parameter (the
caller passes `parameters.reverse`, so the first pop pairs the *last*
parameter with the top of the stack), pop an argument term and wrap the
accumulated goal in `Conj2(Unify(Variable(parameter), argument), acc)`. -/
def retWrap : List Nat → GoalV → List Value → Except String (GoalV × List Value)
  | [], acc, stk => .ok (acc, stk)
  | p :: ps, acc, stk =>
    match stk with
    | Value.Term t :: stk' =>
      retWrap ps (GoalV.Conj2 (GoalV.Unify (Term.Variable p) t) acc) stk'
    | _ :: _ => .error ("TypeError: Expected term as argument to relation.")
    | [] => .error ("Stack underflow.")

/-- The goal the `Ret` protocol is specified to build (§4.3 of the spec):
starting from the body goal `g`, fold the parameters `p₁ … pₙ` with their
position-matched arguments `a₁ … aₙ` from right to left, producing
`Conj2(Unify(Variable p₁, a₁), Conj2( …, Conj2(Unify(Variable pₙ, aₙ), g)))`. -/
def wrapParams : List Nat → List Term → GoalV → GoalV
  | p :: ps, a :: as_, g =>
    GoalV.Conj2 (GoalV.Unify (Term.Variable p) a) (wrapParams ps as_ g)
  | _, _, g => g

/-- The post-dispatch rule of the interpreter loop: increment the ip of the
frame now on top; if it reaches the end of the frame's instruction buffer,
pop the frame (the implicit return). -/
def advanceTop (fr : Frame) (cs : List Frame) : List Frame :=
  if fr.ip + 1 = fr.instructions.length then cs
  else { fr with ip := fr.ip + 1 } :: cs

/-- Is this value a `Stream`?  (The only non-clonable value.) -/
def Term.isTuple : Term → Bool
  | .Tuple _ => true
  | _ => false

def Value.isStream : Value → Bool
  | .Stream _ => true
  | _ => false

/-- The error condition of the `GetEnv` opcode: the pop fails or yields a
non-`Variable` operand, the id is unbound, or the stored value is a
`Stream`. -/
def getEnvErrCond : List Value → List (Nat × Value) → Bool
  | Value.Term (Term.Variable v) :: _, env =>
    match envLookup env v with
    | none => true
    | some (Value.Stream _) => true
    | some _ => false
  | _ :: _, _ => true
  | [], _ => true

/-- One iteration of the `VirtualMachine::run` loop from `vm.rs`: fetch the
instruction at the top frame's ip, dispatch on the opcode, then post-
increment the ip of whatever frame is now on top, popping the frame when
the ip reaches the end of its buffer.  `Call` pushes the callee frame and
skips the post-increment (the `continue` in the source).  An empty call
stack at fetch time halts normally.  Fetching past the end of the buffer
cannot happen for states reached from `run`'s entry (the post-increment
pops exhausted frames) and is modelled as an error, standing for the Rust
index panic. -/
def vmStep (fuel : Nat) (st : VMState) : StepRes :=
  match st.callstack with
  | [] => .halt st
  | fr :: cs =>
    let ip := fr.ip
    match fr.instructions.get? ip with
    | none => .err ("instruction pointer out of bounds") ip
    | some op =>
      match op with
      | .Atom atom =>
        .ok ⟨Value.Term (Term.Atom atom) :: st.stack, advanceTop fr cs, st.env⟩
      | .Var var =>
        .ok ⟨Value.Term (Term.Variable var) :: st.stack, advanceTop fr cs, st.env⟩
      | .Conj2 =>
        match st.stack with
        | Value.Goal left :: Value.Goal right :: stk =>
          .ok ⟨Value.Goal (GoalV.Conj2 left right) :: stk, advanceTop fr cs, st.env⟩
        | Value.Goal _ :: _ :: _ => .err ("Expected term.") ip
        | Value.Goal _ :: [] => .err ("Stack underflow.") ip
        | _ :: _ => .err ("Expected term.") ip
        | [] => .err ("Stack underflow.") ip
      | .Disj2 =>
        match st.stack with
        | Value.Goal left :: Value.Goal right :: stk =>
          .ok ⟨Value.Goal (GoalV.Disj2 left right) :: stk, advanceTop fr cs, st.env⟩
        | Value.Goal _ :: _ :: _ => .err ("Expected term.") ip
        | Value.Goal _ :: [] => .err ("Stack underflow.") ip
        | _ :: _ => .err ("Expected term.") ip
        | [] => .err ("Stack underflow.") ip
      | .Unify =>
        match st.stack with
        | Value.Term left :: Value.Term right :: stk =>
          .ok ⟨Value.Goal (GoalV.Unify left right) :: stk, advanceTop fr cs, st.env⟩
        | Value.Term _ :: _ :: _ => .err ("Expected term.") ip
        | Value.Term _ :: [] => .err ("Stack underflow.") ip
        | _ :: _ => .err ("Expected term.") ip
        | [] => .err ("Stack underflow.") ip
      | .Solve =>
        match st.stack with
        | Value.Goal goal :: stk =>
          match solveGoal fuel goal [] with
          | some stream => .ok ⟨Value.Stream stream :: stk, advanceTop fr cs, st.env⟩
          | none => .err ("model: walk fuel exhausted") ip
        | _ :: _ => .err ("TypeError: Expected goal.") ip
        | [] => .err ("Stack underflow.") ip
      | .Next =>
        match st.stack with
        | Value.Stream stream :: stk =>
          match stream with
          | substs :: rest =>
            .ok ⟨Value.Table (substToTable substs) :: Value.Stream rest :: stk,
              advanceTop fr cs, st.env⟩
          | [] => .ok ⟨Value.NoneV :: stk, advanceTop fr cs, st.env⟩
        | _ :: _ => .err ("Unexpected value.") ip
        | [] => .err ("Stack underflow.") ip
      | .Pop =>
        match st.stack with
        | _ :: stk => .ok ⟨stk, advanceTop fr cs, st.env⟩
        | [] => .err ("Stack underflow.") ip
      | .NewTable =>
        .ok ⟨Value.Table [] :: st.stack, advanceTop fr cs, st.env⟩
      | .SetTable =>
        match st.stack with
        | Value.Term value :: Value.Term key :: Value.Table tbl :: stk =>
          .ok ⟨Value.Table (tableInsert tbl key value) :: stk, advanceTop fr cs, st.env⟩
        | Value.Term _ :: Value.Term _ :: _ :: _ => .err ("Expected table.") ip
        | Value.Term _ :: Value.Term _ :: [] => .err ("Stack underflow.") ip
        | Value.Term _ :: _ :: _ => .err ("TypeError: Expected term.") ip
        | Value.Term _ :: [] => .err ("Stack underflow.") ip
        | _ :: _ => .err ("TypeError: Expected term.") ip
        | [] => .err ("Stack underflow.") ip
      | .GetTable =>
        match st.stack with
        | Value.Term key :: Value.Table tbl :: stk =>
          match tableLookup tbl key with
          | some term =>
            .ok ⟨Value.Term term :: Value.Table tbl :: stk, advanceTop fr cs, st.env⟩
          | none =>
            .ok ⟨Value.NoneV :: Value.Table tbl :: stk, advanceTop fr cs, st.env⟩
        | Value.Term _ :: _ :: _ => .err ("TypeError: Expected table.") ip
        | Value.Term _ :: [] => .err ("Stack underflow.") ip
        | _ :: _ => .err ("TypeError: Expected Term.") ip
        | [] => .err ("Stack underflow.") ip
      | .SetEnv =>
        match st.stack with
        | value :: Value.Term (Term.Variable v) :: stk =>
          .ok ⟨stk, advanceTop fr cs, envInsert st.env v value⟩
        | _ :: Value.Term _ :: _ => .err ("TypeError: Expected variable.") ip
        | _ :: _ :: _ => .err ("TypeError: Expected variable.") ip
        | _ :: [] => .err ("Stack underflow.") ip
        | [] => .err ("Stack underflow.") ip
      | .GetEnv =>
        match st.stack with
        | Value.Term (Term.Variable v) :: stk =>
          match envLookup st.env v with
          | some value =>
            match value with
            | Value.Stream _ =>
              .err ("Accessing streams through variables is not implemented.") ip
            | other => .ok ⟨other :: stk, advanceTop fr cs, st.env⟩
          | none => .err ("Undefined variable.") ip
        | Value.Term _ :: _ => .err ("TypeError: Expected variable.") ip
        | _ :: _ => .err ("TypeError: Expected variable.") ip
        | [] => .err ("Stack underflow.") ip
      | .Call =>
        match st.stack with
        | Value.Callable kind parameters instructions cip :: stk =>
          .ok ⟨stk, ⟨kind, parameters, instructions, cip⟩ :: fr :: cs, st.env⟩
        | _ :: _ => .err ("TypeError: Expected callable.") ip
        | [] => .err ("Stack underflow.") ip
      | .Ret =>
        -- pops the frame the `Ret` was fetched from (the top frame).
        if fr.kind = CallableKind.Relation then
          match st.stack with
          | Value.Goal goal :: stk =>
            match retWrap fr.parameters.reverse goal stk with
            | .ok (result, stk') =>
              match cs with
              | caller :: cs' =>
                .ok ⟨Value.Goal result :: stk', advanceTop caller cs', st.env⟩
              | [] => .err ("model: empty callstack after dispatch") ip
            | .error msg => .err msg fr.ip
          | _ :: _ => .err ("TypeError: Unexpected type returned from relation.") fr.ip
          | [] => .err ("Stack underflow.") fr.ip
        else
          match cs with
          | caller :: cs' => .ok ⟨st.stack, advanceTop caller cs', st.env⟩
          | [] => .err ("model: empty callstack after dispatch") ip
      | .Callable kind parameters instructions cip =>
        .ok ⟨Value.Callable kind parameters instructions cip :: st.stack,
          advanceTop fr cs, st.env⟩

/-- Result of running the interpreter loop for a bounded number of
iterations. -/
inductive RunRes where
  | running : VMState → RunRes
  | halted : VMState → RunRes
  | errored : String → Nat → RunRes
deriving Repr

/-- Iterate `vmStep` at most `steps` times. -/
def vmRun (fuel : Nat) : Nat → VMState → RunRes
  | 0, st => .running st
  | steps + 1, st =>
    match vmStep fuel st with
    | .ok st' => vmRun fuel steps st'
    | .halt st' => .halted st'
    | .err msg ip => .errored msg ip

mutual

/-- Does an opcode contain a `Ret`, looking inside `Callable` literals? -/
def hasRetO : Opcode → Bool
  | .Ret => true
  | .Callable _ _ instructions _ => hasRetL instructions
  | _ => false
termination_by structural op => op

/-- Does any opcode of the buffer contain a `Ret`? -/
def hasRetL : List Opcode → Bool
  | [] => false
  | op :: rest => hasRetO op || hasRetL rest
termination_by structural l => l

end

/-! ### The code generator from `codegen.rs` -/

/-- The `AST` consumed by the code generator (produced by `parser.rs`).
`FnCall` carries the source offset used in `SyntaxError`s. -/
inductive AST where
  | Conj : List AST → AST
  | Disj : List AST → AST
  | Equals : AST → AST → AST
  | Var : List AST → AST → AST
  | Atom : String → AST
  | Variable : String → AST
  | FnCall : String → List AST → Nat → AST
  | Program : List AST → AST
  | Table : List AST → AST
  | LetBinding : String → AST → AST
  | BindingRef : String → AST
  | Relation : List AST → AST → AST
deriving Repr

/-- The ways `generate` can fail: a `SyntaxError` (undefined built-in
function, with its source offset), or one of the `unreachable!` panics of
the source (a non-`Variable` declaration in a `var` block or relation
parameter list, or `Context::pop` emptying the scope stack). -/
inductive GenError where
  | Syntax : String → Nat → GenError
  | Unreachable : String → GenError
deriving Repr

/-- Model of `HashMap::get` within one scope of the code generator's context. -/
def scopeLookup : List (String × Nat) → String → Option Nat
  | [], _ => none
  | (k, id) :: rest, s => if k = s then some id else scopeLookup rest s

/-- Model of `codegen::Context`: a lexical stack of name → id scopes.  The head of
the list is the innermost scope (the *last* element of the Rust `Vec`,
which `lookup` visits first via `iter().rev()`). -/
abbrev Ctx := List (List (String × Nat))

/-- Model of `Context::lookup`: search the scopes from innermost to outermost. -/
def ctxLookup : Ctx → String → Option Nat
  | [], _ => none
  | scope :: outer, s =>
    match scopeLookup scope s with
    | some id => some id
    | none => ctxLookup outer s

/-- Model of `Context::insert`: bind a name in the innermost scope (overwriting). -/
def ctxInsert (ctx : Ctx) (id : Nat) (value : String) : Ctx :=
  match ctx with
  | [] => []
  | scope :: outer =>
    ((value, id) :: scope.filter (fun p => !(p.1 == value))) :: outer

/-- The state the code generator threads: the scope stack and the VM's
interner (`next_id` counter plus the id → name table; `intern`
pre-increments, so the first id handed out is 1). -/
structure GenState where
  ctx : Ctx
  nextId : Nat
  interned : List (Nat × String)
deriving Repr

/-- Model of `VirtualMachine::intern`. -/
def internS (st : GenState) (s : String) : Nat × GenState :=
  (st.nextId + 1,
   { st with
       nextId := st.nextId + 1
       interned := (st.nextId + 1, s) :: st.interned })

/-- The fresh code-generation state: one empty global scope, counter at 0. -/
def initGenState : GenState := ⟨[[]], 0, []⟩

/-- Look a name up in the context; if missing, intern it and bind it in the
innermost scope.  This is the shared shape of the `Atom`, `Variable`,
`LetBinding` and `BindingRef` arms of `generate`. -/
def lookupOrIntern (st : GenState) (s : String) : Nat × GenState :=
  match ctxLookup st.ctx s with
  | some id => (id, st)
  | none =>
    let (id, st') := internS st s
    (id, { st' with ctx := ctxInsert st'.ctx id s })

mutual

/-- Model of `generate` from `codegen.rs`: walk the AST, threading the context and
the interner, appending opcodes to `instr`.  The `Relation` arm interns the
parameter ids and generates the body into a separate, initially empty
buffer — and passes the context through *unchanged*: it neither pushes a
scope nor inserts the parameter ids. -/
def generate (ast : AST) (st : GenState) (instr : List Opcode) :
    Except GenError (GenState × List Opcode) :=
  match ast with
  | .Conj nodes => generateFold Opcode.Conj2 nodes true st instr
  | .Disj nodes => generateFold Opcode.Disj2 nodes true st instr
  | .Equals left right => do
    let (st, instr) ← generate left st instr
    let (st, instr) ← generate right st instr
    .ok (st, instr ++ [Opcode.Unify])
  | .Var declarations body => do
    let st1 := { st with ctx := [] :: st.ctx }
    let st2 ← generateDecls declarations st1
    let (st3, instr') ← generate body st2 instr
    match st3.ctx with
    | _ :: rest =>
      if rest.isEmpty then
        .error (GenError.Unreachable ("Internal error: empty context while doing codegen"))
      else .ok ({ st3 with ctx := rest }, instr')
    | [] => .error (GenError.Unreachable ("Internal error: empty context while doing codegen"))
  | .Atom s => do
    let (id, st') := lookupOrIntern st s
    .ok (st', instr ++ [Opcode.Atom id])
  | .Variable v => do
    let (id, st') := lookupOrIntern st v
    .ok (st', instr ++ [Opcode.Var id])
  | .FnCall name args offset => do
    let (st, instr) ← generateList args st instr
    if name = "solve" then .ok (st, instr ++ [Opcode.Solve])
    else if name = "next" then .ok (st, instr ++ [Opcode.Next])
    else .error (GenError.Syntax ("Undefined function: " ++ name) offset)
  | .Program statements => generateList statements st instr
  | .Table fields => generateTable fields false st (instr ++ [Opcode.NewTable])
  | .LetBinding name value => do
    let (id, st') := lookupOrIntern st name
    let (st'', instr') ← generate value st' (instr ++ [Opcode.Var id])
    .ok (st'', instr' ++ [Opcode.SetEnv])
  | .BindingRef name => do
    let (id, st') := lookupOrIntern st name
    .ok (st', instr ++ [Opcode.Var id, Opcode.GetEnv])
  | .Relation parameters body => do
    let (params, st1) ← internParams parameters st
    let (st2, bodyInstr) ← generate body st1 []
    .ok (st2, instr ++ [Opcode.Callable CallableKind.Relation params bodyInstr 0])
termination_by structural ast

/-- The `Conj`/`Disj` loops of `generate`: emit each child, pushing the
combining opcode after every child but the first. -/
def generateFold (op : Opcode) (nodes : List AST) (first : Bool)
    (st : GenState) (instr : List Opcode) :
    Except GenError (GenState × List Opcode) :=
  match nodes with
  | [] => .ok (st, instr)
  | node :: rest => do
    let (st', instr') ← generate node st instr
    let instr'' := if first then instr' else instr' ++ [op]
    generateFold op rest false st' instr''
termination_by structural nodes

/-- The declarations loop of the `Var` arm: each declaration must be a
`Variable`; intern it and bind it in the (just pushed) innermost scope. -/
def generateDecls (declarations : List AST) (st : GenState) :
    Except GenError GenState :=
  match declarations with
  | [] => .ok st
  | .Variable v :: rest =>
    let (id, st') := internS st v
    generateDecls rest { st' with ctx := ctxInsert st'.ctx id v }
  | _ :: _ => .error (GenError.Unreachable ("Var declarations must be variables"))
termination_by structural declarations

/-- The argument/statement loops of the `FnCall` and `Program` arms. -/
def generateList (nodes : List AST) (st : GenState) (instr : List Opcode) :
    Except GenError (GenState × List Opcode) :=
  match nodes with
  | [] => .ok (st, instr)
  | node :: rest => do
    let (st', instr') ← generate node st instr
    generateList rest st' instr'
termination_by structural nodes

/-- The fields loop of the `Table` arm: emit each field, pushing `SetTable`
after every second field (the toggle starts false and flips per field). -/
def generateTable (fields : List AST) (genSetTable : Bool)
    (st : GenState) (instr : List Opcode) :
    Except GenError (GenState × List Opcode) :=
  match fields with
  | [] => .ok (st, instr)
  | field :: rest => do
    let (st', instr') ← generate field st instr
    let instr'' := if genSetTable then instr' ++ [Opcode.SetTable] else instr'
    generateTable rest (!genSetTable) st' instr''
termination_by structural fields

/-- The parameter loop of the `Relation` arm: each parameter must be a
`Variable`; intern it and collect the id (without touching the context). -/
def internParams (parameters : List AST) (st : GenState) :
    Except GenError (List Nat × GenState) :=
  match parameters with
  | [] => .ok ([], st)
  | .Variable p :: rest => do
    let (id, st') := internS st p
    let (ids, st'') ← internParams rest st'
    .ok (id :: ids, st'')
  | _ :: _ =>
    .error (GenError.Unreachable ("Relation parameters must only include variables"))
termination_by structural parameters

end

/-- Did code generation succeed with a buffer free of `Ret` opcodes
(including inside nested `Callable` literals)?  Errors count as
`Ret`-free. -/
def hasRetRes : Except GenError (GenState × List Opcode) → Bool
  | .ok (_, l) => hasRetL l
  | .error _ => false

/-- The instruction buffer of the concrete C10 program: push an argument
atom, materialise a codegen-shaped relation (body `[Var 2, Atom 3, Unify]`,
no `Ret`), and call it. -/
def c10Body : List Opcode := [Opcode.Var 2, Opcode.Atom 3, Opcode.Unify]

def c10Outer : List Opcode :=
  [Opcode.Atom 9,
   Opcode.Callable CallableKind.Relation [1] c10Body 0,
   Opcode.Call]

def c10Init : VMState := ⟨[], [⟨CallableKind.Function, [], c10Outer, 0⟩], []⟩


/-! ## Part 2: theorems -/

mutual

theorem termEq_iff : ∀ a b : Term, termEq a b = true ↔ a = b
  | .Atom u, b => by
    cases b <;> simp [termEq]
  | .Variable u, b => by
    cases b <;> simp [termEq]
  | .Tuple u, b => by
    cases b with
    | Atom v => simp [termEq]
    | Variable v => simp [termEq]
    | Tuple v => simpa [termEq] using termListEq_iff u v

theorem termListEq_iff : ∀ u v : List Term, termListEq u v = true ↔ u = v
  | [], v => by cases v <;> simp [termListEq]
  | a :: as_, v => by
    cases v with
    | nil => simp [termListEq]
    | cons b bs =>
      simp [termListEq, Bool.and_eq_true, termEq_iff a b, termListEq_iff as_ bs]

end

/-! ### Walk lemmas -/

theorem walkF_zero (t : Term) (s : Subst) : walkF 0 t s = none := rfl

theorem walkF_succ_atom (n a : Nat) (s : Subst) :
    walkF (n + 1) (Term.Atom a) s = some (Term.Atom a) := rfl

theorem walkF_succ_tuple (n : Nat) (ts : List Term) (s : Subst) :
    walkF (n + 1) (Term.Tuple ts) s = some (Term.Tuple ts) := rfl

theorem walkF_succ_var (n v : Nat) (s : Subst) :
    walkF (n + 1) (Term.Variable v) s =
      match lookupSub s v with
      | some t => walkF n t s
      | none => some (Term.Variable v) := rfl

/-- A successful walk stops at a term that walks no further: the result is
either not a variable, or a variable with no binding. -/
theorem walkF_endpoint : ∀ fuel t s r, walkF fuel t s = some r →
    (∀ v, r = Term.Variable v → lookupSub s v = none) := by
  intro fuel
  induction fuel with
  | zero => intro t s r h; simp [walkF_zero] at h
  | succ n ih =>
    intro t s r h v hv
    match t with
    | .Variable w =>
      rw [walkF_succ_var] at h
      cases hlk : lookupSub s w with
      | some t' =>
        rw [hlk] at h
        exact ih t' s r h v hv
      | none =>
        rw [hlk] at h
        simp only [Option.some.injEq] at h
        subst h
        cases hv
        exact hlk
    | .Atom a =>
      rw [walkF_succ_atom] at h
      simp only [Option.some.injEq] at h
      subst h
      cases hv
    | .Tuple ts =>
      rw [walkF_succ_tuple] at h
      simp only [Option.some.injEq] at h
      subst h
      cases hv

/-- A walk endpoint is a fixed point of `walkF` for any positive fuel. -/
theorem walkF_endpoint_fixed : ∀ fuel t s r, walkF fuel t s = some r →
    ∀ m, walkF (m + 1) r s = some r := by
  intro fuel t s r h m
  cases r with
  | Variable v =>
    have hnone := walkF_endpoint fuel t s (Term.Variable v) h v rfl
    rw [walkF_succ_var, hnone]
  | Atom a => rw [walkF_succ_atom]
  | Tuple ts => rw [walkF_succ_tuple]

/-- Consistency of the fuel semantics: if a walk succeeds with some fuel, it
returns the same result with any larger fuel. -/
theorem walkF_mono : ∀ fuel t s r, walkF fuel t s = some r →
    ∀ m, fuel ≤ m → walkF m t s = some r := by
  intro fuel
  induction fuel with
  | zero => intro t s r h; simp [walkF_zero] at h
  | succ n ih =>
    intro t s r h m hm
    obtain ⟨m', rfl⟩ : ∃ m', m = m' + 1 := ⟨m - 1, by omega⟩
    match t with
    | .Variable w =>
      rw [walkF_succ_var] at h ⊢
      cases hlk : lookupSub s w with
      | some t' => rw [hlk] at h; exact ih t' s r h m' (by omega)
      | none => rw [hlk] at h; exact h
    | .Atom a => rw [walkF_succ_atom] at h ⊢; exact h
    | .Tuple ts => rw [walkF_succ_tuple] at h ⊢; exact h

theorem lookupSub_filter_ne (s : Subst) (v w : Nat) (h : w ≠ v) :
    lookupSub (s.filter fun p => !(p.1 == v)) w = lookupSub s w := by
  induction s with
  | nil => rfl
  | cons p rest ih =>
    obtain ⟨k, t⟩ := p
    by_cases hk : k = v
    · subst hk
      rw [show List.filter (fun p => !(p.1 == k)) ((k, t) :: rest) =
          List.filter (fun p => !(p.1 == k)) rest by
            rw [List.filter_cons_of_neg]; simp]
      rw [ih, lookupSub, if_neg (by omega)]
    · rw [show List.filter (fun p => !(p.1 == v)) ((k, t) :: rest) =
          (k, t) :: List.filter (fun p => !(p.1 == v)) rest by
            rw [List.filter_cons_of_pos]; simp [hk]]
      rw [lookupSub, lookupSub]
      by_cases hkw : k = w
      · rw [if_pos hkw, if_pos hkw]
      · rw [if_neg hkw, if_neg hkw, ih]

theorem lookupSub_insert_eq (s : Subst) (v : Nat) (t : Term) :
    lookupSub (insertSub s v t) v = some t := by
  rw [insertSub, lookupSub, if_pos rfl]

theorem lookupSub_insert_ne (s : Subst) (v w : Nat) (t : Term) (h : w ≠ v) :
    lookupSub (insertSub s v t) w = lookupSub s w := by
  rw [insertSub, lookupSub, if_neg (by omega), lookupSub_filter_ne s v w h]

/-- Inserting a binding whose value is not the key's own variable preserves
the no-self-binding invariant. -/
theorem insertSub_noself (s : Subst) (v : Nat) (t : Term)
    (hns : NoSelfBinding s) (ht : t ≠ Term.Variable v) :
    NoSelfBinding (insertSub s v t) := by
  intro w
  by_cases hw : w = v
  · subst hw
    rw [lookupSub_insert_eq]
    intro hc
    exact ht (Option.some.inj hc)
  · rw [lookupSub_insert_ne s v w t hw]
    exact hns w

/-! ### Unfolding equations for `unifyF` (all definitional) -/

theorem unifyF_atom_atom (fuel a b : Nat) (s : Subst) :
    unifyF fuel (Term.Atom a) (Term.Atom b) s =
      some (termEq (Term.Atom a) (Term.Atom b), s) := rfl

theorem unifyF_atom_var (fuel a w : Nat) (s : Subst) :
    unifyF fuel (Term.Atom a) (Term.Variable w) s =
      (walkF fuel (Term.Variable w) s).bind (fun x =>
        match x with
        | .Variable var => some (true, insertSub s var (Term.Atom a))
        | _ => some (termEq (Term.Variable w) x, s)) := rfl

theorem unifyF_atom_tuple (fuel a : Nat) (ts : List Term) (s : Subst) :
    unifyF fuel (Term.Atom a) (Term.Tuple ts) s = some (false, s) := rfl

theorem unifyF_var (fuel v : Nat) (right : Term) (s : Subst) :
    unifyF fuel (Term.Variable v) right s =
      (walkF fuel (Term.Variable v) s).bind (fun x =>
        if termEq right x then some (true, s)
        else
          match x with
          | .Variable var =>
            (walkF fuel right s).bind (fun y =>
              if termEq x y then some (true, s)
              else some (true, insertSub s var right))
          | _ => some (false, s)) := rfl

theorem unifyF_tuple_atom (fuel : Nat) (u : List Term) (a : Nat) (s : Subst) :
    unifyF fuel (Term.Tuple u) (Term.Atom a) s = some (false, s) := rfl

theorem unifyF_tuple_var (fuel : Nat) (u : List Term) (w : Nat) (s : Subst) :
    unifyF fuel (Term.Tuple u) (Term.Variable w) s =
      (walkF fuel (Term.Variable w) s).bind (fun x =>
        match x with
        | .Variable var => some (true, insertSub s var (Term.Tuple u))
        | _ => some (termEq (Term.Variable w) x, s)) := rfl

theorem unifyF_tuple_tuple (fuel : Nat) (u v : List Term) (s : Subst) :
    unifyF fuel (Term.Tuple u) (Term.Tuple v) s =
      if u.length ≠ v.length then some (false, s)
      else unifyListF fuel u v s := rfl

theorem unifyListF_cons_cons (fuel : Nat) (u0 v0 : Term) (us vs : List Term)
    (s : Subst) :
    unifyListF fuel (u0 :: us) (v0 :: vs) s =
      (unifyF fuel u0 v0 s).bind (fun p =>
        match p with
        | (ok, bindings') =>
          if ok then unifyListF fuel us vs bindings'
          else some (false, bindings')) := rfl

theorem unifyListF_nil_left (fuel : Nat) (v : List Term) (s : Subst) :
    unifyListF fuel [] v s = some (true, s) := by
  cases v <;> rfl

theorem unifyListF_nil_right (fuel : Nat) (u : List Term) (s : Subst) :
    unifyListF fuel u [] s = some (true, s) := by
  cases u <;> rfl

mutual

/-- A `unify` call never introduces a self-binding: if the substitution
before the call has no variable bound to itself, neither has the one after
the call, whether the call succeeded or failed. -/
theorem unifyF_noself : ∀ (left : Term) (fuel : Nat) (right : Term)
    (s : Subst) (res : Bool) (s' : Subst),
    unifyF fuel left right s = some (res, s') →
    NoSelfBinding s → NoSelfBinding s'
  | .Atom a => by
    intro fuel right s res s' h hns
    match right with
    | .Atom b =>
      rw [unifyF_atom_atom] at h
      cases h
      exact hns
    | .Variable w =>
      rw [unifyF_atom_var] at h
      cases hw : walkF fuel (Term.Variable w) s with
      | none => rw [hw] at h; cases h
      | some x =>
        rw [hw] at h
        match x with
        | .Variable var =>
          simp only [Option.some_bind] at h
          cases h
          exact insertSub_noself s var (Term.Atom a) hns (by intro hc; cases hc)
        | .Atom c =>
          simp only [Option.some_bind] at h
          cases h
          exact hns
        | .Tuple ts =>
          simp only [Option.some_bind] at h
          cases h
          exact hns
    | .Tuple ts =>
      rw [unifyF_atom_tuple] at h
      cases h
      exact hns
  | .Variable v => by
    intro fuel right s res s' h hns
    rw [unifyF_var] at h
    cases hw : walkF fuel (Term.Variable v) s with
    | none => rw [hw] at h; cases h
    | some x =>
      rw [hw] at h
      simp only [Option.some_bind] at h
      by_cases heq : termEq right x = true
      · rw [if_pos heq] at h
        cases h
        exact hns
      · rw [if_neg heq] at h
        match x with
        | .Variable var =>
          cases hy : walkF fuel right s with
          | none => rw [hy] at h; cases h
          | some y =>
            rw [hy] at h
            simp only [Option.some_bind] at h
            by_cases hxy : termEq (Term.Variable var) y = true
            · rw [if_pos hxy] at h
              cases h
              exact hns
            · rw [if_neg hxy] at h
              cases h
              refine insertSub_noself s var right hns ?_
              intro hc
              subst hc
              exact heq (by rw [termEq_iff])
        | .Atom c =>
          cases h
          exact hns
        | .Tuple ts =>
          cases h
          exact hns
  | .Tuple u => by
    intro fuel right s res s' h hns
    match right with
    | .Atom b =>
      rw [unifyF_tuple_atom] at h
      cases h
      exact hns
    | .Variable w =>
      rw [unifyF_tuple_var] at h
      cases hw : walkF fuel (Term.Variable w) s with
      | none => rw [hw] at h; cases h
      | some x =>
        rw [hw] at h
        match x with
        | .Variable var =>
          simp only [Option.some_bind] at h
          cases h
          exact insertSub_noself s var (Term.Tuple u) hns (by intro hc; cases hc)
        | .Atom c =>
          simp only [Option.some_bind] at h
          cases h
          exact hns
        | .Tuple ts =>
          simp only [Option.some_bind] at h
          cases h
          exact hns
    | .Tuple vts =>
      rw [unifyF_tuple_tuple] at h
      by_cases hlen : u.length ≠ vts.length
      · rw [if_pos hlen] at h
        cases h
        exact hns
      · rw [if_neg hlen] at h
        exact unifyListF_noself u fuel vts s res s' h hns
termination_by structural left => left

/-- The element-wise loop of tuple unification preserves the
no-self-binding invariant. -/
theorem unifyListF_noself : ∀ (u : List Term) (fuel : Nat) (v : List Term)
    (s : Subst) (res : Bool) (s' : Subst),
    unifyListF fuel u v s = some (res, s') →
    NoSelfBinding s → NoSelfBinding s'
  | [] => by
    intro fuel v s res s' h hns
    rw [unifyListF_nil_left] at h
    cases h
    exact hns
  | u0 :: us => by
    intro fuel v s res s' h hns
    match v with
    | [] =>
      rw [unifyListF_nil_right] at h
      cases h
      exact hns
    | v0 :: vs =>
      rw [unifyListF_cons_cons] at h
      cases hu : unifyF fuel u0 v0 s with
      | none => rw [hu] at h; cases h
      | some p =>
        obtain ⟨ok, s1⟩ := p
        rw [hu] at h
        simp only [Option.some_bind] at h
        have hns1 : NoSelfBinding s1 := unifyF_noself u0 fuel v0 s ok s1 hu hns
        by_cases hok : ok = true
        · rw [if_pos hok] at h
          exact unifyListF_noself us fuel vs s1 res s' h hns1
        · rw [if_neg hok] at h
          cases h
          exact hns1
termination_by structural u => u

end

/-! ### Stream iterator lemmas -/

theorem interleaveSpec_nil {σ : Type} : ∀ l : List σ, interleaveSpec l [] = l
  | [] => by rw [interleaveSpec]
  | x :: l => by rw [interleaveSpec, interleaveSpec]

/-- With fuel at least the total number of buffered items, `disjRunF`
computes the miniKanren interleaving of the two streams (in both toggle
states). -/
theorem disjRunF_spec {σ : Type} : ∀ fuel (l r : List σ),
    l.length + r.length ≤ fuel →
    disjRunF fuel ⟨l, r, true⟩ = interleaveSpec l r ∧
    disjRunF fuel ⟨l, r, false⟩ = interleaveSpec r l := by
  intro fuel
  induction fuel with
  | zero =>
    intro l r hlen
    match l, r with
    | [], [] => refine ⟨?_, ?_⟩ <;> (rw [interleaveSpec]; rfl)
    | x :: l, r => simp at hlen
    | [], y :: r => simp at hlen
  | succ n ih =>
    intro l r hlen
    constructor
    · match l, r with
      | [], [] => rw [interleaveSpec]; rfl
      | x :: l, r =>
        rw [interleaveSpec,
          show disjRunF (n + 1) (⟨x :: l, r, true⟩ : DisjState σ) =
            x :: disjRunF n ⟨l, r, false⟩ from rfl,
          (ih l r (by simp at hlen ⊢; omega)).2]
      | [], y :: r =>
        rw [interleaveSpec,
          show disjRunF (n + 1) (⟨[], y :: r, true⟩ : DisjState σ) =
            y :: disjRunF n ⟨[], r, false⟩ from rfl,
          (ih [] r (by simp at hlen ⊢; omega)).2, interleaveSpec_nil]
    · match l, r with
      | [], [] => rw [interleaveSpec]; rfl
      | l, y :: r =>
        rw [interleaveSpec,
          show disjRunF (n + 1) (⟨l, y :: r, false⟩ : DisjState σ) =
            y :: disjRunF n ⟨l, r, true⟩ from (by cases l <;> rfl),
          (ih l r (by simp at hlen ⊢; omega)).1]
      | x :: l, [] =>
        rw [interleaveSpec,
          show disjRunF (n + 1) (⟨x :: l, [], false⟩ : DisjState σ) =
            x :: disjRunF n ⟨l, [], true⟩ from rfl,
          (ih l [] (by simp at hlen ⊢; omega)).1, interleaveSpec_nil]

/-- With fuel at least `conjM`, `conj2RunF` yields the pending inner items
followed by the flat-map of `f` over the remaining outer stream. -/
theorem conj2RunF_spec {σ : Type} (f : σ → List σ) : ∀ fuel inner left,
    conjM f inner left ≤ fuel →
    conj2RunF f fuel inner left = (Option.getD inner []) ++ flatMapSpec f left := by
  intro fuel
  induction fuel with
  | zero =>
    intro inner left hle
    match inner, left with
    | none, [] => rfl
    | none, s :: left' => simp [conjM, List.map_cons] at hle
    | some l, left => simp [conjM] at hle
  | succ n ih =>
    intro inner left hle
    match inner, left with
    | some (x :: inner'), left =>
      show x :: conj2RunF f n (some inner') left = _
      rw [ih (some inner') left (by simp [conjM] at hle ⊢; omega)]
      rfl
    | some [], left =>
      show conj2RunF f n none left = _
      rw [ih none left (by simp [conjM] at hle ⊢; omega)]
      rfl
    | none, s :: left' =>
      show conj2RunF f n (some (f s)) left' = _
      rw [ih (some (f s)) left' (by simp [conjM, List.map_cons] at hle ⊢; omega)]
      rfl
    | none, [] => rfl

/-! ### Lemmas about the `Ret` wrapping -/

theorem retWrap_append : ∀ (qs1 qs2 : List Nat) (g : GoalV) (stk : List Value),
    retWrap (qs1 ++ qs2) g stk =
      match retWrap qs1 g stk with
      | .ok (g', stk') => retWrap qs2 g' stk'
      | .error e => .error e := by
  intro qs1
  induction qs1 with
  | nil => intro qs2 g stk; rfl
  | cons p qs1 ih =>
    intro qs2 g stk
    match stk with
    | [] => rfl
    | Value.Term t :: stk' =>
      rw [show (p :: qs1) ++ qs2 = p :: (qs1 ++ qs2) from rfl]
      rw [show retWrap (p :: (qs1 ++ qs2)) g (Value.Term t :: stk') =
        retWrap (qs1 ++ qs2) (GoalV.Conj2 (GoalV.Unify (Term.Variable p) t) g) stk'
        from rfl]
      rw [ih]
      rfl
    | Value.Goal _ :: stk' => rfl
    | Value.Stream _ :: stk' => rfl
    | Value.Table _ :: stk' => rfl
    | Value.NoneV :: stk' => rfl
    | Value.Callable _ _ _ _ :: stk' => rfl

/-- The parameter-binding loop of `Ret`, run on the reversed parameter list
against the stack holding the arguments in push order (last argument on
top), produces exactly the right-to-left fold of the specification. -/
theorem retWrap_spec : ∀ (ps : List Nat) (as_ : List Term) (g : GoalV)
    (rest : List Value), as_.length = ps.length →
    retWrap ps.reverse g ((as_.reverse.map Value.Term) ++ rest) =
      .ok (wrapParams ps as_ g, rest) := by
  intro ps
  induction ps with
  | nil =>
    intro as_ g rest hlen
    cases as_ with
    | nil => rfl
    | cons a as2 => exact absurd hlen (by simp)
  | cons p ps ih =>
    intro as_ g rest hlen
    cases as_ with
    | nil => exact absurd hlen (by simp)
    | cons a as2 =>
      rw [show (p :: ps).reverse = ps.reverse ++ [p] by simp,
        show (a :: as2).reverse.map Value.Term ++ rest =
          as2.reverse.map Value.Term ++ (Value.Term a :: rest) by simp,
        retWrap_append, ih as2 g (Value.Term a :: rest) (by simpa using hlen)]
      rfl

/-! ### The code generator never emits `Ret` -/

theorem hasRetL_append : ∀ l1 l2 : List Opcode,
    hasRetL (l1 ++ l2) = (hasRetL l1 || hasRetL l2) := by
  intro l1
  induction l1 with
  | nil => intro l2; rfl
  | cons op rest ih =>
    intro l2
    rw [show (op :: rest) ++ l2 = op :: (rest ++ l2) from rfl]
    rw [show hasRetL (op :: (rest ++ l2)) = (hasRetO op || hasRetL (rest ++ l2))
      from rfl]
    rw [ih,
      show hasRetL (op :: rest) = (hasRetO op || hasRetL rest) from rfl,
      Bool.or_assoc]

mutual

/-- The function `generate` never appends a `Ret` opcode, not even inside the nested
instruction buffers of `Callable` literals. -/
theorem generate_noRet : ∀ (ast : AST) (st : GenState) (instr : List Opcode),
    hasRetL instr = false → hasRetRes (generate ast st instr) = false
  | .Conj nodes => fun st instr hi =>
    generateFold_noRet nodes Opcode.Conj2 rfl true st instr hi
  | .Disj nodes => fun st instr hi =>
    generateFold_noRet nodes Opcode.Disj2 rfl true st instr hi
  | .Equals left right => by
    intro st instr hi
    show hasRetRes (do
      let (st, instr) ← generate left st instr
      let (st, instr) ← generate right st instr
      Except.ok (st, instr ++ [Opcode.Unify])) = false
    cases hl : generate left st instr with
    | error e => rfl
    | ok p =>
      obtain ⟨st1, i1⟩ := p
      have h1 : hasRetL i1 = false := by
        have hres := generate_noRet left st instr hi
        rw [hl] at hres
        exact hres
      show hasRetRes (do
        let (st, instr) ← generate right st1 i1
        Except.ok (st, instr ++ [Opcode.Unify])) = false
      cases hr : generate right st1 i1 with
      | error e => rfl
      | ok q =>
        obtain ⟨st2, i2⟩ := q
        have h2 : hasRetL i2 = false := by
          have hres := generate_noRet right st1 i1 h1
          rw [hr] at hres
          exact hres
        show hasRetL (i2 ++ [Opcode.Unify]) = false
        rw [hasRetL_append, h2]
        rfl
  | .Var declarations body => by
    intro st instr hi
    show hasRetRes (do
      let st2 ← generateDecls declarations { st with ctx := [] :: st.ctx }
      let (st3, instr') ← generate body st2 instr
      match st3.ctx with
      | _ :: rest =>
        if rest.isEmpty then
          Except.error (GenError.Unreachable
            ("Internal error: empty context while doing codegen"))
        else Except.ok ({ st3 with ctx := rest }, instr')
      | [] => Except.error (GenError.Unreachable
          ("Internal error: empty context while doing codegen"))) = false
    cases hd : generateDecls declarations { st with ctx := [] :: st.ctx } with
    | error e => rfl
    | ok st2 =>
      show hasRetRes (do
        let (st3, instr') ← generate body st2 instr
        match st3.ctx with
        | _ :: rest =>
          if rest.isEmpty then
            Except.error (GenError.Unreachable
              ("Internal error: empty context while doing codegen"))
          else Except.ok ({ st3 with ctx := rest }, instr')
        | [] => Except.error (GenError.Unreachable
            ("Internal error: empty context while doing codegen"))) = false
      cases hb : generate body st2 instr with
      | error e => rfl
      | ok p =>
        obtain ⟨st3, instr'⟩ := p
        have h1 : hasRetL instr' = false := by
          have hres := generate_noRet body st2 instr hi
          rw [hb] at hres
          exact hres
        show hasRetRes (match st3.ctx with
          | _ :: rest =>
            if rest.isEmpty then
              Except.error (GenError.Unreachable
                ("Internal error: empty context while doing codegen"))
            else Except.ok ({ st3 with ctx := rest }, instr')
          | [] => Except.error (GenError.Unreachable
              ("Internal error: empty context while doing codegen"))) = false
        match hctx : st3.ctx with
        | [] => rfl
        | scope :: rest =>
          show hasRetRes (if rest.isEmpty then
              Except.error (GenError.Unreachable
                ("Internal error: empty context while doing codegen"))
            else Except.ok ({ st3 with ctx := rest }, instr')) = false
          by_cases hre : rest.isEmpty
          · rw [if_pos hre]; rfl
          · rw [if_neg hre]
            exact h1
  | .Atom s => by
    intro st instr hi
    show hasRetL (instr ++ [Opcode.Atom (lookupOrIntern st s).1]) = false
    rw [hasRetL_append, hi]
    rfl
  | .Variable v => by
    intro st instr hi
    show hasRetL (instr ++ [Opcode.Var (lookupOrIntern st v).1]) = false
    rw [hasRetL_append, hi]
    rfl
  | .FnCall name args offset => by
    intro st instr hi
    show hasRetRes (do
      let (st, instr) ← generateList args st instr
      if name = "solve" then Except.ok (st, instr ++ [Opcode.Solve])
      else if name = "next" then Except.ok (st, instr ++ [Opcode.Next])
      else Except.error (GenError.Syntax ("Undefined function: " ++ name) offset))
      = false
    cases hl : generateList args st instr with
    | error e => rfl
    | ok p =>
      obtain ⟨st1, i1⟩ := p
      have h1 : hasRetL i1 = false := by
        have hres := generateList_noRet args st instr hi
        rw [hl] at hres
        exact hres
      show hasRetRes (if name = "solve" then Except.ok (st1, i1 ++ [Opcode.Solve])
        else if name = "next" then Except.ok (st1, i1 ++ [Opcode.Next])
        else Except.error (GenError.Syntax ("Undefined function: " ++ name) offset))
        = false
      by_cases hs : name = "solve"
      · rw [if_pos hs]
        show hasRetL (i1 ++ [Opcode.Solve]) = false
        rw [hasRetL_append, h1]
        rfl
      · rw [if_neg hs]
        by_cases hn : name = "next"
        · rw [if_pos hn]
          show hasRetL (i1 ++ [Opcode.Next]) = false
          rw [hasRetL_append, h1]
          rfl
        · rw [if_neg hn]
          rfl
  | .Program statements => fun st instr hi =>
    generateList_noRet statements st instr hi
  | .Table fields => by
    intro st instr hi
    refine generateTable_noRet fields false st (instr ++ [Opcode.NewTable]) ?_
    rw [hasRetL_append, hi]
    rfl
  | .LetBinding name value => by
    intro st instr hi
    show hasRetRes (do
      let (st2, instr') ← generate value (lookupOrIntern st name).2
        (instr ++ [Opcode.Var (lookupOrIntern st name).1])
      Except.ok (st2, instr' ++ [Opcode.SetEnv])) = false
    cases hv : generate value (lookupOrIntern st name).2
        (instr ++ [Opcode.Var (lookupOrIntern st name).1]) with
    | error e => rfl
    | ok p =>
      obtain ⟨st2, i2⟩ := p
      have h1 : hasRetL i2 = false := by
        have hres := generate_noRet value (lookupOrIntern st name).2
          (instr ++ [Opcode.Var (lookupOrIntern st name).1])
          (by rw [hasRetL_append, hi]; rfl)
        rw [hv] at hres
        exact hres
      show hasRetL (i2 ++ [Opcode.SetEnv]) = false
      rw [hasRetL_append, h1]
      rfl
  | .BindingRef name => by
    intro st instr hi
    show hasRetL (instr ++ [Opcode.Var (lookupOrIntern st name).1, Opcode.GetEnv])
      = false
    rw [hasRetL_append, hi]
    rfl
  | .Relation parameters body => by
    intro st instr hi
    show hasRetRes (do
      let (params, st1) ← internParams parameters st
      let (st2, bodyInstr) ← generate body st1 []
      Except.ok (st2, instr ++
        [Opcode.Callable CallableKind.Relation params bodyInstr 0])) = false
    cases hp : internParams parameters st with
    | error e => rfl
    | ok p =>
      obtain ⟨params, st1⟩ := p
      show hasRetRes (do
        let (st2, bodyInstr) ← generate body st1 []
        Except.ok (st2, instr ++
          [Opcode.Callable CallableKind.Relation params bodyInstr 0])) = false
      cases hb : generate body st1 [] with
      | error e => rfl
      | ok q =>
        obtain ⟨st2, bodyInstr⟩ := q
        have h1 : hasRetL bodyInstr = false := by
          have hres := generate_noRet body st1 [] rfl
          rw [hb] at hres
          exact hres
        show hasRetL (instr ++
          [Opcode.Callable CallableKind.Relation params bodyInstr 0]) = false
        rw [hasRetL_append, hi,
          show hasRetL [Opcode.Callable CallableKind.Relation params bodyInstr 0] =
            (hasRetL bodyInstr || false) from rfl, h1]
        rfl
termination_by structural ast => ast

/-- The `Conj`/`Disj` loop never appends a `Ret` when the combining opcode
has none (it is `Conj2` or `Disj2`). -/
theorem generateFold_noRet : ∀ (nodes : List AST) (op : Opcode)
    (_hop : hasRetO op = false) (first : Bool) (st : GenState)
    (instr : List Opcode), hasRetL instr = false →
    hasRetRes (generateFold op nodes first st instr) = false
  | [] => fun _ _ _ _ _ hi => hi
  | node :: rest => by
    intro op hop first st instr hi
    show hasRetRes (do
      let (st', instr') ← generate node st instr
      let instr'' := if first then instr' else instr' ++ [op]
      generateFold op rest false st' instr'') = false
    cases hg : generate node st instr with
    | error e => rfl
    | ok p =>
      obtain ⟨st1, i1⟩ := p
      have h1 : hasRetL i1 = false := by
        have hres := generate_noRet node st instr hi
        rw [hg] at hres
        exact hres
      show hasRetRes (generateFold op rest false st1
        (if first then i1 else i1 ++ [op])) = false
      by_cases hf : first = true
      · rw [if_pos hf]
        exact generateFold_noRet rest op hop false st1 i1 h1
      · rw [if_neg hf]
        refine generateFold_noRet rest op hop false st1 (i1 ++ [op]) ?_
        rw [hasRetL_append, h1,
          show hasRetL [op] = (hasRetO op || false) from rfl, hop]
        rfl
termination_by structural nodes => nodes

/-- The `FnCall`/`Program` loop never appends a `Ret`. -/
theorem generateList_noRet : ∀ (nodes : List AST) (st : GenState)
    (instr : List Opcode), hasRetL instr = false →
    hasRetRes (generateList nodes st instr) = false
  | [] => fun st instr hi => hi
  | node :: rest => by
    intro st instr hi
    show hasRetRes (do
      let (st', instr') ← generate node st instr
      generateList rest st' instr') = false
    cases hg : generate node st instr with
    | error e => rfl
    | ok p =>
      obtain ⟨st1, i1⟩ := p
      have h1 : hasRetL i1 = false := by
        have hres := generate_noRet node st instr hi
        rw [hg] at hres
        exact hres
      exact generateList_noRet rest st1 i1 h1
termination_by structural nodes => nodes

/-- The `Table` loop never appends a `Ret` (it appends only `SetTable`). -/
theorem generateTable_noRet : ∀ (fields : List AST) (genSetTable : Bool)
    (st : GenState) (instr : List Opcode), hasRetL instr = false →
    hasRetRes (generateTable fields genSetTable st instr) = false
  | [] => fun genSetTable st instr hi => hi
  | field :: rest => by
    intro genSetTable st instr hi
    show hasRetRes (do
      let (st', instr') ← generate field st instr
      let instr'' := if genSetTable then instr' ++ [Opcode.SetTable] else instr'
      generateTable rest (!genSetTable) st' instr'') = false
    cases hg : generate field st instr with
    | error e => rfl
    | ok p =>
      obtain ⟨st1, i1⟩ := p
      have h1 : hasRetL i1 = false := by
        have hres := generate_noRet field st instr hi
        rw [hg] at hres
        exact hres
      show hasRetRes (generateTable rest (!genSetTable) st1
        (if genSetTable then i1 ++ [Opcode.SetTable] else i1)) = false
      by_cases hf : genSetTable = true
      · rw [if_pos hf]
        refine generateTable_noRet rest (!genSetTable) st1 (i1 ++ [Opcode.SetTable]) ?_
        rw [hasRetL_append, h1]
        rfl
      · rw [if_neg hf]
        exact generateTable_noRet rest (!genSetTable) st1 i1 h1
termination_by structural fields => fields

end

/-! ### Helper lemmas for the Disj2 claim -/

/-- Each pull flips the `interleave_left` toggle, whether or not the pull
produced a value. -/
theorem disjStep_toggle {σ : Type} (s : DisjState σ) :
    (disjStep s).interleaveLeft = !s.interleaveLeft := by
  obtain ⟨l, r, b⟩ := s
  cases b <;> cases l <;> cases r <;> rfl

/-- After `n` pulls the toggle is the initial toggle xor the parity of `n`. -/
theorem disjStep_parity {σ : Type} : ∀ (n : Nat) (s : DisjState σ),
    (disjStep^[n] s).interleaveLeft =
      (if n % 2 = 0 then s.interleaveLeft else !s.interleaveLeft) := by
  intro n
  induction n with
  | zero => intro s; rfl
  | succ k ih =>
    intro s
    rw [Function.iterate_succ_apply, ih (disjStep s), disjStep_toggle]
    by_cases hk : k % 2 = 0
    · rw [if_pos hk, if_neg (by omega)]
    · rw [if_neg hk, if_pos (by omega), Bool.not_not]

/-- Exhausting the `Disj2Iterator` from the initial state (toggle on the
left) yields the miniKanren interleaving of the two streams. -/
theorem disjRun_interleave {σ : Type} (l r : List σ) :
    disjRun ⟨l, r, true⟩ = interleaveSpec l r :=
  (disjRunF_spec (l.length + r.length) l r le_rfl).1

/-! ### The claims -/

/-- Claim C1 (code bug).  The claim says: for every atom id `u`, variable id
`v`, and substitution in which `Variable(v)` resolves via `walk` to
`Atom(u)`, `unify(Atom(u), Variable(v), s)` returns true.  The code instead
returns `false` on exactly this input, because the `Atom`-left arm compares
the *unwalked* right-hand variable with the walked result (`right == x`
instead of `left == x`), contradicting the function's own documentation
("the unification will succeed if the value of the bound variable or the
atom is equal to the other term").  This theorem evaluates the model at the
failing input: `unify(Atom(1), Variable(1), {1 ↦ Atom(1)})` returns `false`
and leaves the substitution unchanged. -/
theorem claimC1 :
    unifyF 4 (Term.Atom 1) (Term.Variable 1) [(1, Term.Atom 1)] =
      some (false, [(1, Term.Atom 1)]) := rfl

/-- Claim C2 (confirmed).  The `Disj2` stream interleaves strictly:
(1) the toggle flips after every pull, whether or not the pull produced a
value; (2, 3) when the selected side is empty the other side is consulted
in the same pull (the pull yields that side's head, if any); (4) after `n`
pulls the selected side is determined by the parity of `n` (odd-numbered
pulls attempt the left stream, even-numbered the right); (5) the complete
stream is the left-first miniKanren interleaving of the two streams. -/
theorem claimC2 :
    (∀ (σ : Type) (s : DisjState σ),
      (disjStep s).interleaveLeft = !s.interleaveLeft)
    ∧ (∀ (σ : Type) (r : List σ),
      (disjNextFn (⟨[], r, true⟩ : DisjState σ)).1 = r.head?)
    ∧ (∀ (σ : Type) (l : List σ),
      (disjNextFn (⟨l, [], false⟩ : DisjState σ)).1 = l.head?)
    ∧ (∀ (σ : Type) (n : Nat) (s : DisjState σ),
      (disjStep^[n] s).interleaveLeft =
        (if n % 2 = 0 then s.interleaveLeft else !s.interleaveLeft))
    ∧ (∀ (σ : Type) (l r : List σ),
      disjRun ⟨l, r, true⟩ = interleaveSpec l r) := by
  refine ⟨fun σ s => disjStep_toggle s, ?_, ?_, fun σ => disjStep_parity,
    fun σ => disjRun_interleave⟩
  · intro σ r
    cases r <;> rfl
  · intro σ l
    cases l <;> rfl

/-- Claim C3 (confirmed).  The `Conj2` stream is the flat-map of the right
goal over the left stream: started with no pending inner stream (as
`Conj2::eval` does), exhausting the iterator yields exactly the
concatenation, in left-outer right-inner order, of the right goal's streams
under each left answer; more generally any pending inner items are yielded
first.  Exhaustion is exactly the end of this list: the iterator returns
`none` once the outer stream and the last inner stream are exhausted. -/
theorem claimC3 :
    (∀ (σ : Type) (f : σ → List σ) (left : List σ),
      conj2Run f none left = flatMapSpec f left)
    ∧ (∀ (σ : Type) (f : σ → List σ) (inner : List σ) (left : List σ),
      conj2Run f (some inner) left = inner ++ flatMapSpec f left) := by
  constructor
  · intro σ f left
    show conj2RunF f (conjM f none left) none left = flatMapSpec f left
    rw [conj2RunF_spec f _ none left le_rfl]
    rfl
  · intro σ f inner left
    show conj2RunF f (conjM f (some inner) left) (some inner) left =
      inner ++ flatMapSpec f left
    rw [conj2RunF_spec f _ (some inner) left le_rfl]
    rfl

/-- Claim C4 (code bug).  The claim (and the specification) say a relation
body sees only the relation's parameters: a body variable named like a
declared parameter resolves to the parameter's interned id, and enclosing
bindings are invisible.  The code generator's `Relation` arm interns the
parameter ids but passes the enclosing context through unchanged — it
neither pushes a scope nor inserts the parameters.  Evaluating the model:
(1) from a fresh state, `rel (x) { x == 'a }` interns the parameter as id 1
but the body's `x` as a *fresh* id 2, so the parameter wrapping of `Ret`
never constrains the body; (2) with an enclosing binding `x ↦ 7` in scope,
the body's `x` resolves to the *enclosing* id 7, not the parameter's id 11:
enclosing bindings are visible inside the body. -/
theorem claimC4 :
    generate
      (AST.Relation [AST.Variable ("x")] (AST.Equals (AST.Variable ("x")) (AST.Atom ("a"))))
      initGenState [] =
      .ok (⟨[[("a", 3), ("x", 2)]], 3, [(3, "a"), (2, "x"), (1, "x")]⟩,
        [Opcode.Callable CallableKind.Relation [1]
          [Opcode.Var 2, Opcode.Atom 3, Opcode.Unify] 0])
    ∧ generate
      (AST.Relation [AST.Variable ("x")] (AST.Equals (AST.Variable ("x")) (AST.Atom ("a"))))
      ⟨[[("x", 7)]], 10, []⟩ [] =
      .ok (⟨[[("a", 12), ("x", 7)]], 12, [(12, "a"), (11, "x")]⟩,
        [Opcode.Callable CallableKind.Relation [11]
          [Opcode.Var 7, Opcode.Atom 12, Opcode.Unify] 0]) := ⟨rfl, rfl⟩

/-- Claim C8 (confirmed).  `walk` is idempotent: whenever a walk terminates
(modelled by `walkF` succeeding within the given fuel), walking the result
again, with the same fuel, returns the result unchanged. -/
theorem claimC8 : ∀ fuel (t : Term) (s : Subst) (r : Term),
    walkF fuel t s = some r → walkF fuel r s = some r := by
  intro fuel t s r h
  obtain ⟨m, rfl⟩ : ∃ m, fuel = m + 1 := by
    cases fuel with
    | zero => rw [walkF_zero] at h; cases h
    | succ m => exact ⟨m, rfl⟩
  exact walkF_endpoint_fixed (m + 1) t s r h m

/-- Witness for C8 at a concrete input: walking `Variable 1` under
`{1 ↦ Atom 5}` gives `Atom 5`, and one more walk yields the same. -/
theorem claimC8_witness :
    walkF 3 (Term.Variable 1) [(1, Term.Atom 5)] = some (Term.Atom 5) ∧
    walkF 3 (Term.Atom 5) [(1, Term.Atom 5)] = some (Term.Atom 5) :=
  ⟨rfl, claimC8 3 (Term.Variable 1) [(1, Term.Atom 5)] (Term.Atom 5) rfl⟩

/-- Claim C6 (corrected).  As stated — for *all* terms `a`, `b` — the claim
fails: when both sides are tuples, `unify` binds the inner variables but
`walk` resolves only a top-level variable, so the walked terms can differ
structurally (see the counterexample).  The amended claim: for all terms
`a`, `b` *not both tuples*, if `unify(a, b, σ)` succeeds from the empty
substitution then `walk(a, σ)` and `walk(b, σ)` afterwards are the same
term.  (Fuel 3 suffices for the walks: a single `unify` call from the empty
substitution adds at most one binding.) -/
theorem claimC6 : ∀ fuel (a b : Term) (s' : Subst),
    (a.isTuple && b.isTuple) = false →
    unifyF fuel a b [] = some (true, s') →
    ∃ r, walkF 3 a s' = some r ∧ walkF 3 b s' = some r := by
  intro fuel a b s' hnt h
  match a, b with
  | .Atom u, .Atom v =>
    rw [unifyF_atom_atom] at h
    simp only [Option.some.injEq, Prod.mk.injEq] at h
    obtain ⟨h1, rfl⟩ := h
    rw [termEq_iff] at h1
    cases h1
    exact ⟨Term.Atom u, rfl, rfl⟩
  | .Atom u, .Variable w =>
    rw [unifyF_atom_var] at h
    cases fuel with
    | zero => rw [walkF_zero] at h; simp at h
    | succ m =>
      rw [show walkF (m + 1) (Term.Variable w) [] = some (Term.Variable w)
        from rfl, Option.some_bind] at h
      replace h : some (true, insertSub [] w (Term.Atom u)) = some (true, s') := h
      simp only [Option.some.injEq, Prod.mk.injEq] at h
      obtain ⟨-, rfl⟩ := h
      refine ⟨Term.Atom u, rfl, ?_⟩
      rw [walkF_succ_var,
        show lookupSub (insertSub [] w (Term.Atom u)) w = some (Term.Atom u)
          from lookupSub_insert_eq [] w (Term.Atom u)]
      rfl
  | .Atom u, .Tuple ts => rw [unifyF_atom_tuple] at h; simp at h
  | .Variable v, b =>
    rw [unifyF_var] at h
    cases fuel with
    | zero => rw [walkF_zero] at h; simp at h
    | succ m =>
      rw [show walkF (m + 1) (Term.Variable v) [] = some (Term.Variable v)
        from rfl, Option.some_bind] at h
      by_cases heq : termEq b (Term.Variable v) = true
      · rw [if_pos heq] at h
        simp only [Option.some.injEq, Prod.mk.injEq] at h
        obtain ⟨-, rfl⟩ := h
        rw [termEq_iff] at heq
        cases heq
        exact ⟨Term.Variable v, rfl, rfl⟩
      · rw [if_neg heq] at h
        replace h : (walkF (m + 1) b []).bind (fun y =>
            if termEq (Term.Variable v) y then some (true, ([] : Subst))
            else some (true, insertSub [] v b)) = some (true, s') := h
        match b, heq with
        | .Atom ub, _ =>
          rw [show walkF (m + 1) (Term.Atom ub) [] = some (Term.Atom ub)
            from rfl, Option.some_bind] at h
          rw [if_neg (by intro hc; cases hc)] at h
          simp only [Option.some.injEq, Prod.mk.injEq] at h
          obtain ⟨-, rfl⟩ := h
          refine ⟨Term.Atom ub, ?_, rfl⟩
          rw [walkF_succ_var,
            show lookupSub (insertSub [] v (Term.Atom ub)) v = some (Term.Atom ub)
              from lookupSub_insert_eq [] v (Term.Atom ub)]
          rfl
        | .Variable w, heq =>
          have hvw : ¬ w = v := by
            intro hc
            subst hc
            exact heq (by simp [termEq])
          rw [show walkF (m + 1) (Term.Variable w) [] = some (Term.Variable w)
            from rfl, Option.some_bind] at h
          rw [if_neg (by
            intro hc
            rw [show termEq (Term.Variable v) (Term.Variable w) = (v == w)
              from rfl] at hc
            have hveq : v = w := by simpa using hc
            exact hvw hveq.symm)] at h
          simp only [Option.some.injEq, Prod.mk.injEq] at h
          obtain ⟨-, rfl⟩ := h
          refine ⟨Term.Variable w, ?_, ?_⟩
          · rw [walkF_succ_var,
              show lookupSub (insertSub [] v (Term.Variable w)) v =
                some (Term.Variable w) from lookupSub_insert_eq [] v _]
            show walkF 2 (Term.Variable w) (insertSub [] v (Term.Variable w)) =
              some (Term.Variable w)
            rw [walkF_succ_var,
              show lookupSub (insertSub [] v (Term.Variable w)) w = none by
                rw [lookupSub_insert_ne [] v w _ hvw]; rfl]
          · rw [walkF_succ_var,
              show lookupSub (insertSub [] v (Term.Variable w)) w = none by
                rw [lookupSub_insert_ne [] v w _ hvw]; rfl]
        | .Tuple ts, _ =>
          rw [show walkF (m + 1) (Term.Tuple ts) [] = some (Term.Tuple ts)
            from rfl, Option.some_bind] at h
          rw [if_neg (by intro hc; cases hc)] at h
          simp only [Option.some.injEq, Prod.mk.injEq] at h
          obtain ⟨-, rfl⟩ := h
          refine ⟨Term.Tuple ts, ?_, rfl⟩
          rw [walkF_succ_var,
            show lookupSub (insertSub [] v (Term.Tuple ts)) v = some (Term.Tuple ts)
              from lookupSub_insert_eq [] v _]
          rfl
  | .Tuple us, .Atom ub => rw [unifyF_tuple_atom] at h; simp at h
  | .Tuple us, .Variable w =>
    rw [unifyF_tuple_var] at h
    cases fuel with
    | zero => rw [walkF_zero] at h; simp at h
    | succ m =>
      rw [show walkF (m + 1) (Term.Variable w) [] = some (Term.Variable w)
        from rfl, Option.some_bind] at h
      replace h : some (true, insertSub [] w (Term.Tuple us)) = some (true, s') := h
      simp only [Option.some.injEq, Prod.mk.injEq] at h
      obtain ⟨-, rfl⟩ := h
      refine ⟨Term.Tuple us, rfl, ?_⟩
      rw [walkF_succ_var,
        show lookupSub (insertSub [] w (Term.Tuple us)) w = some (Term.Tuple us)
          from lookupSub_insert_eq [] w _]
      rfl
  | .Tuple us, .Tuple vs => exact absurd hnt (by simp [Term.isTuple])

/-- Counterexample for C6 as stated: `unify` of `Tuple[Variable 1]` against
`Tuple[Atom 7]` from the empty substitution succeeds, producing
`{1 ↦ Atom 7}`, but walking the two sides returns them unchanged (walk
resolves only top-level variables), and they are not structurally equal. -/
theorem claimC6_counterexample :
    unifyF 5 (Term.Tuple [Term.Variable 1]) (Term.Tuple [Term.Atom 7]) [] =
      some (true, [(1, Term.Atom 7)]) ∧
    walkF 5 (Term.Tuple [Term.Variable 1]) [(1, Term.Atom 7)] =
      some (Term.Tuple [Term.Variable 1]) ∧
    walkF 5 (Term.Tuple [Term.Atom 7]) [(1, Term.Atom 7)] =
      some (Term.Tuple [Term.Atom 7]) ∧
    termEq (Term.Tuple [Term.Variable 1]) (Term.Tuple [Term.Atom 7]) = false :=
  ⟨rfl, rfl, rfl, rfl⟩

/-- Witness for C6 at a concrete input: `Variable 1` against `Atom 2` (not
both tuples) unifies from the empty substitution, and both sides then walk
to the same term. -/
theorem claimC6_witness :
    ((Term.Variable 1).isTuple && (Term.Atom 2).isTuple) = false ∧
    unifyF 1 (Term.Variable 1) (Term.Atom 2) [] = some (true, [(1, Term.Atom 2)]) ∧
    ∃ r, walkF 3 (Term.Variable 1) [(1, Term.Atom 2)] = some r ∧
      walkF 3 (Term.Atom 2) [(1, Term.Atom 2)] = some r :=
  ⟨rfl, rfl, claimC6 1 (Term.Variable 1) (Term.Atom 2) [(1, Term.Atom 2)] rfl rfl⟩

/-- Claim C7 (confirmed).  (1) Every substitution reachable from the empty
substitution by a sequence of `unify` calls has no variable bound to
itself; (2) when both sides of a `unify` call walk to the same variable,
the call succeeds without adding a binding. -/
theorem claimC7 :
    (∀ s, ReachableSubst s → ∀ v, lookupSub s v ≠ some (Term.Variable v))
    ∧ (∀ fuel (s : Subst) (lv : Nat) (r : Term) (v : Nat),
        walkF fuel (Term.Variable lv) s = some (Term.Variable v) →
        walkF fuel r s = some (Term.Variable v) →
        unifyF fuel (Term.Variable lv) r s = some (true, s)) := by
  constructor
  · intro s hreach
    induction hreach with
    | empty => intro v hc; cases hc
    | step fuel a b res hr hu ih => exact unifyF_noself a fuel b _ res _ hu ih
  · intro fuel s lv r v h1 h2
    rw [unifyF_var, h1, Option.some_bind]
    by_cases heq : termEq r (Term.Variable v) = true
    · rw [if_pos heq]
    · rw [if_neg heq]
      show (walkF fuel r s).bind (fun y =>
        if termEq (Term.Variable v) y then some (true, s)
        else some (true, insertSub s v r)) = some (true, s)
      rw [h2, Option.some_bind, if_pos (by simp [termEq])]

/-- Witness for C7: the substitution `{1 ↦ Atom 2}` is reachable (one
successful `unify` call from empty) and maps no variable to itself; and
unifying `Variable 3` with itself succeeds without adding a binding. -/
theorem claimC7_witness :
    lookupSub [(1, Term.Atom 2)] 1 ≠ some (Term.Variable 1) ∧
    unifyF 1 (Term.Variable 3) (Term.Variable 3) [] = some (true, []) := by
  constructor
  · exact claimC7.1 [(1, Term.Atom 2)]
      (ReachableSubst.step 1 (Term.Variable 1) (Term.Atom 2) true
        ReachableSubst.empty rfl) 1
  · exact claimC7.2 1 [] 3 (Term.Variable 3) 3 rfl rfl

/-- Claim C5 (confirmed).  Executing `Ret` when the popped activation frame
is a `Relation` with parameters `ps` pops one Goal and then one argument
term per parameter (the stack holds, from the top, the goal, then the
arguments in reverse push order `ts`), and pushes the goal built by folding
right to left: `Conj2(Unify(Variable pᵢ, aᵢ), acc)` for `i = n … 1` with
`acc` initialised to the body goal, where `aᵢ` (`= ts.reverse !ᵢ`) is the
argument pushed for position `i`.  The popped frame is gone and the
caller's ip advances. -/
theorem claimC5 : ∀ (fuel : Nat) (ps : List Nat) (ts : List Term) (g : GoalV)
    (ins : List Opcode) (ip : Nat) (rest : List Value) (caller : Frame)
    (cs : List Frame) (env : List (Nat × Value)),
    ins.get? ip = some Opcode.Ret →
    ts.length = ps.length →
    vmStep fuel ⟨Value.Goal g :: (ts.map Value.Term ++ rest),
        ⟨CallableKind.Relation, ps, ins, ip⟩ :: caller :: cs, env⟩ =
      .ok ⟨Value.Goal (wrapParams ps ts.reverse g) :: rest,
        advanceTop caller cs, env⟩ := by
  intro fuel ps ts g ins ip rest caller cs env hop hlen
  have hrw := retWrap_spec ps ts.reverse g rest (by simpa using hlen)
  rw [List.reverse_reverse] at hrw
  simp only [vmStep, hop]
  rw [if_pos trivial, hrw]

/-- Witness for C5: a relation frame with parameters `[1, 2]`, body goal
`Unify(Atom 5, Atom 5)` and arguments `Atom 10` (position 1) and `Atom 20`
(position 2) on the stack; `Ret` pushes
`Conj2(Unify(Var 1, Atom 10), Conj2(Unify(Var 2, Atom 20), g))`. -/
theorem claimC5_witness :
    (([Opcode.Ret] : List Opcode).get? 0 = some Opcode.Ret) ∧
    (([Term.Atom 20, Term.Atom 10] : List Term).length =
      ([1, 2] : List Nat).length) ∧
    vmStep 1 ⟨[Value.Goal (GoalV.Unify (Term.Atom 5) (Term.Atom 5)),
        Value.Term (Term.Atom 20), Value.Term (Term.Atom 10)],
      [⟨CallableKind.Relation, [1, 2], [Opcode.Ret], 0⟩,
       ⟨CallableKind.Function, [], [Opcode.Call, Opcode.Pop], 0⟩], []⟩ =
      .ok ⟨[Value.Goal (wrapParams [1, 2] ([Term.Atom 20, Term.Atom 10]).reverse
          (GoalV.Unify (Term.Atom 5) (Term.Atom 5)))],
        advanceTop ⟨CallableKind.Function, [], [Opcode.Call, Opcode.Pop], 0⟩ [], []⟩ :=
  ⟨rfl, rfl,
    claimC5 1 [1, 2] [Term.Atom 20, Term.Atom 10]
      (GoalV.Unify (Term.Atom 5) (Term.Atom 5)) [Opcode.Ret] 0 []
      ⟨CallableKind.Function, [], [Opcode.Call, Opcode.Pop], 0⟩ [] [] rfl rfl⟩

/-- Claim C9 (confirmed).  A `GetEnv` step raises a `RuntimeError` carrying
the current instruction pointer exactly when the popped operand is missing
or not a `Term(Variable _)`, the id is unbound, or the stored value is a
`Stream`; in every other case it pushes the stored value (a clone: the
model's equality) and leaves the environment untouched. -/
theorem claimC9 : ∀ (fuel : Nat) (stk : List Value) (env : List (Nat × Value))
    (fr : Frame) (cs : List Frame),
    fr.instructions.get? fr.ip = some Opcode.GetEnv →
    (((∃ m, vmStep fuel ⟨stk, fr :: cs, env⟩ = .err m fr.ip) ↔
      getEnvErrCond stk env = true)
    ∧ (∀ (v : Nat) (val : Value) (stk' : List Value),
        stk = Value.Term (Term.Variable v) :: stk' →
        envLookup env v = some val → val.isStream = false →
        vmStep fuel ⟨stk, fr :: cs, env⟩ =
          .ok ⟨val :: stk', advanceTop fr cs, env⟩)) := by
  intro fuel stk env fr cs hop
  constructor
  · constructor
    · rintro ⟨m, hm⟩
      cases stk with
      | nil => rfl
      | cons v0 stk' =>
        cases v0 with
        | Term t =>
          cases t with
          | Variable v =>
            show (match envLookup env v with
              | none => true
              | some (Value.Stream _) => true
              | some _ => false) = true
            cases he : envLookup env v with
            | none => rfl
            | some val =>
              cases val with
              | Stream l => rfl
              | Term t' =>
                simp only [vmStep, hop, he] at hm
                cases hm
              | Goal g' =>
                simp only [vmStep, hop, he] at hm
                cases hm
              | Table tbl =>
                simp only [vmStep, hop, he] at hm
                cases hm
              | NoneV =>
                simp only [vmStep, hop, he] at hm
                cases hm
              | Callable k p i q =>
                simp only [vmStep, hop, he] at hm
                cases hm
          | Atom a => rfl
          | Tuple ts => rfl
        | Goal g => rfl
        | Stream l => rfl
        | Table tbl => rfl
        | NoneV => rfl
        | Callable k p i q => rfl
    · intro hc
      cases stk with
      | nil => exact ⟨"Stack underflow.", by simp only [vmStep, hop]⟩
      | cons v0 stk' =>
        cases v0 with
        | Term t =>
          cases t with
          | Variable v =>
            cases he : envLookup env v with
            | none => exact ⟨"Undefined variable.", by simp only [vmStep, hop, he]⟩
            | some val =>
              cases val with
              | Stream l =>
                exact ⟨"Accessing streams through variables is not implemented.",
                  by simp only [vmStep, hop, he]⟩
              | Term t' =>
                rw [show getEnvErrCond (Value.Term (Term.Variable v) :: stk') env =
                  (match envLookup env v with
                   | none => true
                   | some (Value.Stream _) => true
                   | some _ => false) from rfl, he] at hc
                cases hc
              | Goal g' =>
                rw [show getEnvErrCond (Value.Term (Term.Variable v) :: stk') env =
                  (match envLookup env v with
                   | none => true
                   | some (Value.Stream _) => true
                   | some _ => false) from rfl, he] at hc
                cases hc
              | Table tbl =>
                rw [show getEnvErrCond (Value.Term (Term.Variable v) :: stk') env =
                  (match envLookup env v with
                   | none => true
                   | some (Value.Stream _) => true
                   | some _ => false) from rfl, he] at hc
                cases hc
              | NoneV =>
                rw [show getEnvErrCond (Value.Term (Term.Variable v) :: stk') env =
                  (match envLookup env v with
                   | none => true
                   | some (Value.Stream _) => true
                   | some _ => false) from rfl, he] at hc
                cases hc
              | Callable k p i q =>
                rw [show getEnvErrCond (Value.Term (Term.Variable v) :: stk') env =
                  (match envLookup env v with
                   | none => true
                   | some (Value.Stream _) => true
                   | some _ => false) from rfl, he] at hc
                cases hc
          | Atom a =>
            exact ⟨"TypeError: Expected variable.", by simp only [vmStep, hop]⟩
          | Tuple ts =>
            exact ⟨"TypeError: Expected variable.", by simp only [vmStep, hop]⟩
        | Goal g =>
          exact ⟨"TypeError: Expected variable.", by simp only [vmStep, hop]⟩
        | Stream l =>
          exact ⟨"TypeError: Expected variable.", by simp only [vmStep, hop]⟩
        | Table tbl =>
          exact ⟨"TypeError: Expected variable.", by simp only [vmStep, hop]⟩
        | NoneV =>
          exact ⟨"TypeError: Expected variable.", by simp only [vmStep, hop]⟩
        | Callable k p i q =>
          exact ⟨"TypeError: Expected variable.", by simp only [vmStep, hop]⟩
  · rintro v val stk' rfl he hstream
    cases val with
    | Stream l => cases hstream
    | Term t' => simp only [vmStep, hop, he]
    | Goal g' => simp only [vmStep, hop, he]
    | Table tbl => simp only [vmStep, hop, he]
    | NoneV => simp only [vmStep, hop, he]
    | Callable k p i q => simp only [vmStep, hop, he]

/-- Witness for C9: with `GetEnv` as the current instruction,
`Variable 1` on the stack and `1 ↦ Atom 2` in the environment, the step
pushes `Term(Atom 2)` and pops the exhausted frame. -/
theorem claimC9_witness :
    (([Opcode.GetEnv] : List Opcode).get? 0 = some Opcode.GetEnv) ∧
    vmStep 1 ⟨[Value.Term (Term.Variable 1)],
        [⟨CallableKind.Function, [], [Opcode.GetEnv], 0⟩],
        [(1, Value.Term (Term.Atom 2))]⟩ =
      .ok ⟨[Value.Term (Term.Atom 2)],
        advanceTop ⟨CallableKind.Function, [], [Opcode.GetEnv], 0⟩ [],
        [(1, Value.Term (Term.Atom 2))]⟩ :=
  ⟨rfl,
    (claimC9 1 [Value.Term (Term.Variable 1)] [(1, Value.Term (Term.Atom 2))]
      ⟨CallableKind.Function, [], [Opcode.GetEnv], 0⟩ [] rfl).2
      1 (Value.Term (Term.Atom 2)) [] rfl rfl rfl⟩

/-- Claim C10 (confirmed).  (1) The code generator never emits a `Ret`
opcode, anywhere in its output, including inside the nested instruction
buffers of `Callable` literals (so in particular not into a relation
body's buffer).  (2) Executing a concrete codegen-shaped program — push an
argument atom, materialise a `Relation` whose body `[Var 2, Atom 3,
Unify]` has no `Ret`, `Call` it — runs the body to the end of its buffer;
the implicit return pops the frame without any of `Ret`'s parameter
wrapping: after six steps the body's bare goal `Unify(Atom 3, Variable 2)`
sits on the stack, the argument `Atom 9` is still below it (never consumed
by any `Unify` of parameters against arguments), and control is back in
the caller. -/
theorem claimC10 :
    (∀ (ast : AST) (st : GenState), hasRetRes (generate ast st []) = false)
    ∧ (∀ fuel, vmRun fuel 6 c10Init =
      .running ⟨[Value.Goal (GoalV.Unify (Term.Atom 3) (Term.Variable 2)),
                 Value.Term (Term.Atom 9)],
                [⟨CallableKind.Function, [], c10Outer, 2⟩], []⟩) :=
  ⟨fun ast st => generate_noRet ast st [] rfl, fun _ => rfl⟩

end Tern

